import Mathlib

/-!
# Verification of the `MemoryPool` arena allocator

Shallow embedding of `src/src/ArduinoJson/Memory/MemoryPool.hpp`: a
two-directional bump arena over one contiguous buffer.  Strings grow upward
from `_begin` at the `_left` cursor; fixed-size variant slots grow downward
from `_end` at the `_right` cursor.

Modelling conventions:
* Pointers are modelled as `Int` addresses (`nullptr` is `0`); pointer
  differences are ordinary integer subtraction.
* The buffer content is a `List Nat` of bytes, indexed relative to `_begin`
  (index `i` holds the byte at address `_begin + i`); its length tracks
  `capacity()`.
* The pluggable `Allocator` is an external collaborator: every operation
  that calls into it (`allocate`/`reallocate`) takes the address the
  allocator returned as an explicit argument.
* `ARDUINOJSON_ENABLE_STRING_DEDUPLICATION` is modelled in its default
  (enabled) configuration, so `findString` is part of `saveString` and
  `saveStringFromFreeZone`.
* `shrinkToFit` calls `VariantSlot::movePointers` on the root, a function
  of the node tree that lives outside the arena; the call is recorded as an
  emitted event `Option (Int × Int)` holding the two displacements passed.
-/

set_option maxRecDepth 4096

namespace ArduinoJson

/-- Modelled from the spec: the pointer size (`sizeof(void*)`) used by
`Alignment.hpp` (not under `src/`); the spec calls the corresponding
property "pointer-aligned".  We fix the common 64-bit value. -/
def pointerSize : Nat := 8

/-- Modelled from the spec: `addPadding` from `Alignment.hpp` (not under
`src/`) on byte counts — round up to the next multiple of the pointer
size (`(bytes + mask) & ~mask`). -/
def addPaddingN (n : Nat) : Nat := (n + 7) / 8 * 8

/-- Modelled from the spec: `addPadding` from `Alignment.hpp` (not under
`src/`) on pointers — round an address up to pointer alignment. -/
def addPaddingP (x : Int) : Int := x + (8 - x % 8) % 8

/-- Modelled from the spec: `isAligned` from `Alignment.hpp` (not under
`src/`) — the address is a multiple of the pointer size. -/
def isAligned (x : Int) : Prop := x % 8 = 0

instance (x : Int) : Decidable (isAligned x) := by
  unfold isAligned; infer_instance

/-- Modelled from the spec: `sizeof(VariantSlot)` (`VariantSlot.hpp` is not
under `src/`): the fixed node-slot size `S`, a multiple of the pointer
size; 16 bytes on a 64-bit platform. -/
def sizeofVariantSlot : Nat := 16

/-- `sizeofArray` (MemoryPool.hpp line 19). -/
def sizeofArray (n : Nat) : Nat := n * sizeofVariantSlot

/-- `sizeofObject` (MemoryPool.hpp line 24). -/
def sizeofObject (n : Nat) : Nat := n * sizeofVariantSlot

/-- `sizeofString` (MemoryPool.hpp line 29): `n + 1`. -/
def sizeofString (n : Nat) : Nat := n + 1

/-! ## Byte-buffer primitives -/

/-- Read the byte at index `i`; out-of-range reads yield `0` (the C++ code
never reads out of range on states satisfying the pool invariant). -/
def getByte (d : List Nat) (i : Nat) : Nat := d.getD i 0

/-- Write the bytes `bs` at index `off` (writes beyond the end of the
buffer are dropped, as `List.set` is the identity out of range). -/
def writeBytes (d : List Nat) (off : Nat) : List Nat → List Nat
  | [] => d
  | b :: rest => writeBytes (d.set off b) (off + 1) rest

/-- `memmove(dst, src, len)` on the relative byte buffer: copy the `len`
bytes starting at index `src` to index `dst`. -/
def memmove (d : List Nat) (dst src len : Nat) : List Nat :=
  writeBytes d dst ((d.drop src).take len)

/-! ## The deduplication scan (`MemoryPool::findString`, lines 226–237)

The C++ loop walks candidate positions starting at `_begin`; on a mismatch
it jumps past the candidate's NUL terminator (`while (*next) ++next; ++next`
combined with the `for` increment).  `skipTerm` is that jump; the loop is
`findStringLoop` over indices relative to `_begin`, with `L` the relative
`_left` bound. -/

/-- Number of consecutive non-NUL bytes at index `q` (the distance the
inner `while (*next) ++next;` travels; the out-of-range byte is `0`, so
this always terminates at the buffer end). -/
def skipLen (d : List Nat) (q : Nat) : Nat :=
  if h : getByte d q = 0 then 0
  else skipLen d (q + 1) + 1
termination_by d.length - q
decreasing_by
  have hq : q < d.length := by
    by_contra hc
    exact h (by unfold getByte; exact List.getD_eq_default _ _ (by omega))
  omega

/-- Advance past the next NUL terminator (`while (*next) ++next;` followed
by the `for` increment `++next`). -/
def skipTerm (d : List Nat) (q : Nat) : Nat := q + skipLen d q + 1

/-- `stringEquals(str, adaptString(next, n))`: the `n` bytes at index `q`
equal `s`. -/
def matchesAt (d : List Nat) (q : Nat) : List Nat → Bool
  | [] => true
  | b :: rest => (getByte d q == b) && matchesAt d (q + 1) rest

/-- The scan loop of `findString`: candidates start at `q`; the bound is
`q + n < L` with `L` the relative `_left`; a hit requires a NUL at `q + n`
and the `n` bytes at `q` to equal `s`. -/
def findStringLoop (d s : List Nat) (L q : Nat) : Option Nat :=
  if _h : q + s.length < L then
    if getByte d (q + s.length) == 0 && matchesAt d q s then some q
    else findStringLoop d s L (skipTerm d q)
  else none
termination_by L - q
decreasing_by
  unfold skipTerm
  omega

/-! ## The arena state (`class MemoryPool`, lines 41–277) -/

/-- The four cursors, the sticky overflow flag, and the buffer content
(`data`, indexed relative to `_begin`, length = `capacity()`).  The
`Allocator*` member is an external collaborator and is not part of the
state; its responses are passed to the operations that consult it. -/
structure MemoryPool where
  _begin : Int
  _left : Int
  _right : Int
  _end : Int
  _overflowed : Bool
  data : List Nat
deriving DecidableEq, Repr

/-- `capacity()` (line 87): `_end - _begin`. -/
def capacity (p : MemoryPool) : Int := p._end - p._begin

/-- `size()` (line 91): `_left - _begin + _end - _right`. -/
def size (p : MemoryPool) : Int := p._left - p._begin + (p._end - p._right)

/-- `overflowed()` (line 95). -/
def overflowed (p : MemoryPool) : Bool := p._overflowed

/-- `canAlloc(bytes)` (line 153): `_left + bytes <= _right`. -/
def canAlloc (p : MemoryPool) (bytes : Nat) : Bool :=
  decide (p._left + (bytes : Int) ≤ p._right)

/-- `owns(p)` (line 157). -/
def owns (p : MemoryPool) (x : Int) : Bool :=
  decide (p._begin ≤ x ∧ x < p._end)

/-- Relative offset of address `a` inside the buffer of `p`. -/
def offsetOf (p : MemoryPool) (a : Int) : Nat := (a - p._begin).toNat

/-- `markAsOverflowed()` (line 143). -/
def markAsOverflowed (p : MemoryPool) : MemoryPool :=
  { p with _overflowed := true }

/-- `clear()` (line 147): `_left = _begin; _right = _end; _overflowed = false`. -/
def clear (p : MemoryPool) : MemoryPool :=
  { p with _left := p._begin, _right := p._end, _overflowed := false }

/-- `allocPool(capa)` (line 265): the allocator's response `buf` is passed
in (`buf = capa ? allocate(capa) : 0`); fresh buffer bytes are modelled as
zeros.  Only the pointer members are assigned; `_overflowed` is untouched. -/
def allocPool (p : MemoryPool) (capa : Nat) (buf : Int) : MemoryPool :=
  if capa = 0 ∨ buf = 0 then
    { p with _begin := 0, _left := 0, _right := 0, _end := 0, data := [] }
  else
    { p with _begin := buf, _left := buf,
             _right := buf + capa, _end := buf + capa,
             data := List.replicate capa 0 }

/-- The constructor `MemoryPool(capa, allocator)` (line 43): sets
`_overflowed(false)` and calls `allocPool(addPadding(capa))`; `buf` is the
allocator's response to `allocate`. -/
def mkPool (capa : Nat) (buf : Int) : MemoryPool :=
  allocPool ⟨0, 0, 0, 0, false, []⟩ (addPaddingN capa) buf

/-- `reallocPool(requiredSize)` (line 73): no-op when the padded size
equals the current capacity; otherwise deallocates and calls
`allocPool(requiredSize)` — note the source passes the *unpadded*
`requiredSize` (line 78), not the padded `capa` it just computed. -/
def reallocPool (p : MemoryPool) (requiredSize : Nat) (buf : Int) : MemoryPool :=
  if (addPaddingN requiredSize : Int) = capacity p then p
  else allocPool p requiredSize buf

/-- `allocRight(bytes)` (line 256): decrement `_right` on success, else set
`_overflowed` and return null (`none`). -/
def allocRight (p : MemoryPool) (bytes : Nat) : MemoryPool × Option Int :=
  if canAlloc p bytes then
    ({ p with _right := p._right - bytes }, some (p._right - bytes))
  else
    ({ p with _overflowed := true }, none)

/-- `allocVariant()` (line 99): `allocRight<VariantSlot>()`. -/
def allocVariant (p : MemoryPool) : MemoryPool × Option Int :=
  allocRight p sizeofVariantSlot

/-- `allocString(n)` (line 240): append `n` bytes at `_left` on success,
returning the old `_left`; else set `_overflowed` and return null. -/
def allocString (p : MemoryPool) (n : Nat) : MemoryPool × Option Int :=
  if canAlloc p n then
    ({ p with _left := p._left + n }, some p._left)
  else
    ({ p with _overflowed := true }, none)

/-- `findString(str)` (line 226), dedup scan over `[_begin, _left)`;
returns the address of an existing copy, or `none` for the null result. -/
def findString (p : MemoryPool) (s : List Nat) : Option Int :=
  (findStringLoop p.data s (offsetOf p p._left) 0).map
    (fun off : Nat => p._begin + (off : Int))

/-- `saveString(str)` (line 103).  The adapted input string is
`Option (List Nat)`: `none` models `str.isNull()`, `some s` a content of
`str.size()` bytes.  On a dedup miss the bytes plus a forced NUL
terminator are copied into the new allocation (`stringGetChars` +
`newCopy[n] = 0`). -/
def saveString (p : MemoryPool) : Option (List Nat) → MemoryPool × Option Int
  | none => (p, none)
  | some s =>
    match findString p s with
    | some existingCopy => (p, some existingCopy)
    | none =>
      match allocString p (s.length + 1) with
      | (p1, none) => (p1, none)
      | (p1, some newCopy) =>
          ({ p1 with data := writeBytes p1.data (offsetOf p1 newCopy) (s ++ [0]) },
           some newCopy)

/-- `getFreeZone(zoneStart, zoneSize)` (line 124). -/
def getFreeZone (p : MemoryPool) : Int × Nat :=
  (p._left, (p._right - p._left).toNat)

/-- The `len` bytes currently sitting at `_left` (what
`adaptString(_left, len)` designates). -/
def zoneBytes (p : MemoryPool) (len : Nat) : List Nat :=
  (p.data.drop (offsetOf p p._left)).take len

/-- `saveStringFromFreeZone(len)` (line 129): dedup check against the
bytes at `_left`; on a hit return the duplicate, else commit by
`_left += len; *_left++ = 0` (i.e. `_left` advances by `len + 1` and a NUL
is written after the payload), returning the old `_left`. -/
def saveStringFromFreeZone (p : MemoryPool) (len : Nat) : MemoryPool × Int :=
  match findString p (zoneBytes p len) with
  | some dup => (p, dup)
  | none =>
      ({ p with _left := p._left + len + 1,
                data := writeBytes p.data (offsetOf p p._left + len) [0] },
       p._left)

/-- `squash()` (line 194): in-place compaction.  `new_right =
addPadding(_left)`; when `new_right >= _right` nothing is reclaimable and
the state is unchanged; otherwise the node region `[_right, _end)` is
`memmove`d down to `new_right` and the buffer is viewed at its new
(smaller) capacity. -/
def squash (p : MemoryPool) : MemoryPool × Int :=
  if p._right ≤ addPaddingP p._left then (p, 0)
  else
    let new_right := addPaddingP p._left
    let right_size := (p._end - p._right).toNat
    ({ p with
        _right := new_right,
        _end := new_right + right_size,
        data := (memmove p.data (offsetOf p new_right) (offsetOf p p._right)
                  right_size).take ((new_right + right_size - p._begin).toNat) },
     p._right - new_right)

/-- `movePointers(offset)` (line 210): shift all four cursors. -/
def movePointers (p : MemoryPool) (offset : Int) : MemoryPool :=
  { p with _begin := p._begin + offset, _left := p._left + offset,
           _right := p._right + offset, _end := p._end + offset }

/-- `shrinkToFit(variant)` (line 166).  `newBase` is the address returned
by `_allocator->reallocate(_begin, capacity())`.  The second component
records the call to the node tree's relocation entry point
(`VariantSlot::movePointers`, outside the arena): `none` when the early
return skips it, `some (ptr_offset, ptr_offset - bytes_reclaimed)` for the
two displacements actually passed. -/
def shrinkToFit (p : MemoryPool) (newBase : Int) : MemoryPool × Option (Int × Int) :=
  if (squash p).2 = 0 then ((squash p).1, none)
  else
    (movePointers (squash p).1 (newBase - (squash p).1._begin),
     some (newBase - (squash p).1._begin,
           newBase - (squash p).1._begin - (squash p).2))

/-! ## Invariant, operation language, preconditions -/

/-- The arena invariant (`checkInvariants`, line 217, plus the alignment
asserts of `allocPool`, lines 269–271, and the bookkeeping fact that the
byte buffer has `capacity()` bytes): `_begin ≤ _left ≤ _right ≤ _end`, the
three alignment-relevant cursors are pointer-aligned, and `data` holds
exactly `capacity()` bytes. -/
def Inv (p : MemoryPool) : Prop :=
  p._begin ≤ p._left ∧ p._left ≤ p._right ∧ p._right ≤ p._end ∧
  isAligned p._begin ∧ isAligned p._right ∧ isAligned p._end ∧
  p.data.length = (p._end - p._begin).toNat

instance (p : MemoryPool) : Decidable (Inv p) := by
  unfold Inv; infer_instance

/-- String-region well-formedness: the region `[_begin, _left)` is a
sequence of NUL-terminated strings, so it is empty or ends in a NUL byte. -/
def WFstr (p : MemoryPool) : Prop :=
  p._left = p._begin ∨ getByte p.data (offsetOf p p._left - 1) = 0

instance (p : MemoryPool) : Decidable (WFstr p) := by
  unfold WFstr; infer_instance

/-- The mutating arena operations of the public interface.  Allocator
responses (`buf`, `newBase`) are carried by the operation.  For
`saveStringFromFreeZone`, `written` is the byte string the caller placed
in the free zone through `getFreeZone` before committing `len` bytes. -/
inductive Op where
  | allocVariant : Op
  | saveString (str : Option (List Nat)) : Op
  | saveStringFromFreeZone (len : Nat) (written : List Nat) : Op
  | clear : Op
  | reallocPool (requiredSize : Nat) (buf : Int) : Op
  | shrinkToFit (newBase : Int) : Op
deriving DecidableEq

/-- Execute one operation. -/
def applyOp (p : MemoryPool) : Op → MemoryPool
  | .allocVariant => (allocVariant p).1
  | .saveString s => (saveString p s).1
  | .saveStringFromFreeZone len w =>
      (saveStringFromFreeZone
        { p with data := writeBytes p.data (offsetOf p p._left) w } len).1
  | .clear => clear p
  | .reallocPool n buf => reallocPool p n buf
  | .shrinkToFit newBase => (shrinkToFit p newBase).1

/-- Preconditions under which each operation is invoked, taken from the
code's own assertions and the documented caller contracts:
* `saveStringFromFreeZone`: the caller must not write past the free zone
  (`getFreeZone` contract) and must leave room for the NUL terminator the
  commit appends — `checkInvariants()` (line 139) asserts exactly this
  after the commit;
* `reallocPool`: `allocPool` asserts `isAligned(_begin)`,
  `isAligned(_right)`, `isAligned(_end)` (lines 269–271), which requires
  the allocator's buffer and the requested size to be pointer-aligned;
* `shrinkToFit`: the reallocated base is pointer-aligned (every
  `malloc`-backed allocator guarantees this). -/
def Pre (p : MemoryPool) : Op → Prop
  | .saveStringFromFreeZone len w =>
      p._left + (len : Int) + 1 ≤ p._right ∧ (w.length : Int) ≤ p._right - p._left
  | .reallocPool n buf => isAligned buf ∧ n % 8 = 0
  | .shrinkToFit newBase => isAligned newBase
  | _ => True

instance (p : MemoryPool) (op : Op) : Decidable (Pre p op) := by
  unfold Pre; cases op <;> infer_instance

/-! ## Lemmas: byte-buffer primitives -/

theorem writeBytes_length (bs : List Nat) : ∀ (d : List Nat) (off : Nat),
    (writeBytes d off bs).length = d.length := by
  induction bs with
  | nil => intro d off; rfl
  | cons b rest ih =>
      intro d off
      simp [writeBytes, ih]

theorem getByte_set_ne (d : List Nat) (i j : Nat) (b : Nat) (h : i ≠ j) :
    getByte (d.set i b) j = getByte d j := by
  unfold getByte
  rcases Nat.lt_or_ge j d.length with hj | hj
  · rw [List.getD_eq_getElem _ _ (by simpa using hj),
      List.getD_eq_getElem _ _ hj, List.getElem_set_ne]
    omega
  · rw [List.getD_eq_default _ _ (by simpa using hj),
      List.getD_eq_default _ _ hj]

theorem getByte_set_eq (d : List Nat) (i : Nat) (b : Nat) (h : i < d.length) :
    getByte (d.set i b) i = b := by
  unfold getByte
  rw [List.getD_eq_getElem _ _ (by simpa using h), List.getElem_set_self]

theorem getByte_writeBytes_lt (bs : List Nat) : ∀ (d : List Nat) (off i : Nat),
    i < off → getByte (writeBytes d off bs) i = getByte d i := by
  induction bs with
  | nil => intro d off i _; rfl
  | cons b rest ih =>
      intro d off i hi
      rw [writeBytes, ih _ _ _ (by omega), getByte_set_ne]
      omega

theorem getByte_writeBytes_at (bs : List Nat) : ∀ (d : List Nat) (off k : Nat),
    k < bs.length → off + k < d.length →
    getByte (writeBytes d off bs) (off + k) = bs.getD k 0 := by
  induction bs with
  | nil => intro d off k hk _; simp at hk
  | cons b rest ih =>
      intro d off k hk hoff
      cases k with
      | zero =>
          rw [writeBytes, getByte_writeBytes_lt _ _ _ _ (by omega)]
          simpa using getByte_set_eq d off b (by omega)
      | succ k' =>
          rw [writeBytes]
          have : off + (k' + 1) = (off + 1) + k' := by omega
          rw [this, ih _ _ _ (by simpa using hk) (by simp; omega)]
          simp

theorem memmove_length (d : List Nat) (dst src len : Nat) :
    (memmove d dst src len).length = d.length := by
  unfold memmove; exact writeBytes_length _ _ _

/-! ## Lemmas: the scan loop -/

theorem skipLen_eq (d : List Nat) (q : Nat) :
    skipLen d q = if getByte d q = 0 then 0 else skipLen d (q + 1) + 1 := by
  rw [skipLen, dite_eq_ite]

theorem skipTerm_gt (d : List Nat) (q : Nat) : q < skipTerm d q := by
  unfold skipTerm; omega

theorem skipTerm_eq (d : List Nat) (q : Nat) :
    skipTerm d q = if getByte d q = 0 then q + 1 else skipTerm d (q + 1) := by
  unfold skipTerm
  rw [skipLen_eq]
  split <;> omega

theorem findStringLoop_eq (d s : List Nat) (L q : Nat) :
    findStringLoop d s L q =
      if q + s.length < L then
        if getByte d (q + s.length) == 0 && matchesAt d q s then some q
        else findStringLoop d s L (skipTerm d q)
      else none := by
  rw [findStringLoop, dite_eq_ite]

/-! ## Lemmas: arithmetic facts about padding -/

theorem addPaddingP_ge (x : Int) : x ≤ addPaddingP x := by
  unfold addPaddingP; omega

theorem addPaddingP_aligned (x : Int) : isAligned (addPaddingP x) := by
  unfold addPaddingP isAligned; omega

theorem addPaddingP_le_of_aligned (x y : Int) (hxy : x ≤ y) (hy : isAligned y) :
    addPaddingP x ≤ y := by
  unfold addPaddingP; unfold isAligned at hy; omega

theorem addPaddingP_add_of_aligned (x d : Int) (hd : isAligned d) :
    addPaddingP (x + d) = addPaddingP x + d := by
  unfold addPaddingP; unfold isAligned at hd; omega

theorem addPaddingN_dvd (n : Nat) : 8 ∣ addPaddingN n := by
  unfold addPaddingN; exact Dvd.intro _ (Nat.mul_comm _ _)

theorem addPaddingN_cast (x : Int) (hx : 0 ≤ x) :
    (addPaddingN x.toNat : Int) = addPaddingP x := by
  unfold addPaddingN addPaddingP
  have h8 : ((x.toNat + 7) / 8 * 8 : Nat) = x.toNat + (8 - x.toNat % 8) % 8 := by
    omega
  push_cast [h8]
  omega

/-! ## Lemmas: invariant preservation, operation by operation -/

theorem canAlloc_iff (p : MemoryPool) (n : Nat) :
    canAlloc p n = true ↔ p._left + (n : Int) ≤ p._right := by
  unfold canAlloc; exact decide_eq_true_iff

theorem inv_allocPool (p : MemoryPool) (capa : Nat) (buf : Int)
    (hcapa : capa % 8 = 0) (hbuf : isAligned buf) :
    Inv (allocPool p capa buf) := by
  unfold Inv isAligned
  unfold isAligned at hbuf
  unfold allocPool
  split
  · dsimp only
    simp
  · dsimp only
    simp only [List.length_replicate]
    refine ⟨by omega, by omega, by omega, hbuf, by omega, by omega, by omega⟩

theorem inv_mkPool (capa : Nat) (buf : Int) (hbuf : isAligned buf) :
    Inv (mkPool capa buf) := by
  have hd : addPaddingN capa % 8 = 0 := by
    have := addPaddingN_dvd capa; omega
  exact inv_allocPool _ _ _ hd hbuf

theorem inv_clear (p : MemoryPool) (h : Inv p) : Inv (clear p) := by
  unfold Inv at h ⊢
  unfold clear
  dsimp only
  obtain ⟨h1, h2, h3, h4, h5, h6, h7⟩ := h
  exact ⟨le_refl _, by omega, le_refl _, h4, h6, h6, h7⟩

theorem inv_allocVariant (p : MemoryPool) (h : Inv p) : Inv (allocVariant p).1 := by
  unfold Inv isAligned at h ⊢
  obtain ⟨h1, h2, h3, h4, h5, h6, h7⟩ := h
  unfold allocVariant allocRight
  by_cases hc : canAlloc p sizeofVariantSlot = true
  · have hcc := (canAlloc_iff p _).1 hc
    rw [if_pos hc]
    dsimp only
    unfold sizeofVariantSlot at hcc ⊢
    refine ⟨h1, by omega, by omega, h4, by omega, h6, by simpa using h7⟩
  · rw [if_neg hc]
    exact ⟨h1, h2, h3, h4, h5, h6, h7⟩

theorem inv_allocString (p : MemoryPool) (n : Nat) (h : Inv p) :
    Inv (allocString p n).1 := by
  unfold Inv isAligned at h ⊢
  obtain ⟨h1, h2, h3, h4, h5, h6, h7⟩ := h
  unfold allocString
  by_cases hc : canAlloc p n = true
  · have hcc := (canAlloc_iff p _).1 hc
    rw [if_pos hc]
    dsimp only
    refine ⟨by omega, by omega, h3, h4, h5, h6, by simpa using h7⟩
  · rw [if_neg hc]
    exact ⟨h1, h2, h3, h4, h5, h6, h7⟩

theorem inv_data_write (p : MemoryPool) (off : Nat) (bs : List Nat) (h : Inv p) :
    Inv { p with data := writeBytes p.data off bs } := by
  unfold Inv at h ⊢
  dsimp only
  obtain ⟨h1, h2, h3, h4, h5, h6, h7⟩ := h
  exact ⟨h1, h2, h3, h4, h5, h6, by simpa [writeBytes_length] using h7⟩

theorem inv_saveString (p : MemoryPool) (str : Option (List Nat)) (h : Inv p) :
    Inv (saveString p str).1 := by
  unfold saveString
  split
  · exact h
  · split
    · exact h
    · rename_i s _ _
      rcases ha : allocString p (s.length + 1) with ⟨p1, a⟩
      have hp1 : Inv p1 := by
        have := inv_allocString p (s.length + 1) h
        rw [ha] at this; exact this
      cases a with
      | none => exact hp1
      | some newCopy => exact inv_data_write p1 _ _ hp1

theorem inv_saveStringFromFreeZone (p : MemoryPool) (len : Nat)
    (h : Inv p) (hlen : p._left + (len : Int) + 1 ≤ p._right) :
    Inv (saveStringFromFreeZone p len).1 := by
  unfold Inv at h ⊢
  obtain ⟨h1, h2, h3, h4, h5, h6, h7⟩ := h
  unfold saveStringFromFreeZone
  split
  · exact ⟨h1, h2, h3, h4, h5, h6, h7⟩
  · dsimp only
    refine ⟨by omega, by omega, h3, h4, h5, h6,
      by simpa [writeBytes_length] using h7⟩

theorem squash_begin (p : MemoryPool) : (squash p).1._begin = p._begin := by
  unfold squash; split <;> rfl

theorem inv_squash (p : MemoryPool) (h : Inv p) : Inv (squash p).1 := by
  unfold Inv isAligned at h ⊢
  obtain ⟨h1, h2, h3, h4, h5, h6, h7⟩ := h
  unfold squash
  by_cases hs : p._right ≤ addPaddingP p._left
  · rw [if_pos hs]; exact ⟨h1, h2, h3, h4, h5, h6, h7⟩
  · rw [if_neg hs]
    dsimp only
    have hge := addPaddingP_ge p._left
    have hal := addPaddingP_aligned p._left
    unfold isAligned at hal
    refine ⟨h1, hge, by omega, h4, hal, by omega, ?_⟩
    simp only [List.length_take, memmove_length, h7]
    omega

theorem inv_movePointers (p : MemoryPool) (off : Int)
    (h : Inv p) (hoff : isAligned off) : Inv (movePointers p off) := by
  unfold Inv isAligned at h ⊢
  obtain ⟨h1, h2, h3, h4, h5, h6, h7⟩ := h
  unfold isAligned at hoff
  unfold movePointers
  dsimp only
  refine ⟨by omega, by omega, by omega, by omega, by omega, by omega, ?_⟩
  rw [show p._end + off - (p._begin + off) = p._end - p._begin by ring]
  exact h7

theorem inv_shrinkToFit (p : MemoryPool) (newBase : Int)
    (h : Inv p) (hnb : isAligned newBase) : Inv (shrinkToFit p newBase).1 := by
  unfold shrinkToFit
  by_cases hz : (squash p).2 = 0
  · rw [if_pos hz]; exact inv_squash p h
  · rw [if_neg hz]
    refine inv_movePointers _ _ (inv_squash p h) ?_
    have hb : isAligned (squash p).1._begin := by
      rw [squash_begin]; exact h.2.2.2.1
    unfold isAligned at hb hnb ⊢
    omega

theorem inv_reallocPool (p : MemoryPool) (n : Nat) (buf : Int)
    (h : Inv p) (hn : n % 8 = 0) (hbuf : isAligned buf) :
    Inv (reallocPool p n buf) := by
  unfold reallocPool
  split
  · exact h
  · exact inv_allocPool p n buf hn hbuf

/-! ## Lemmas: characterizations of the operations -/

theorem allocString_fail (p : MemoryPool) (n : Nat)
    (hc : ¬ p._left + (n : Int) ≤ p._right) :
    allocString p n = ({ p with _overflowed := true }, none) := by
  unfold allocString
  rw [if_neg (by rw [canAlloc_iff]; exact hc)]

theorem allocString_ok (p : MemoryPool) (n : Nat)
    (hc : p._left + (n : Int) ≤ p._right) :
    allocString p n = ({ p with _left := p._left + n }, some p._left) := by
  unfold allocString
  rw [if_pos ((canAlloc_iff p n).2 hc)]

theorem saveString_hit (p : MemoryPool) (s : List Nat) (a : Int)
    (hf : findString p s = some a) :
    saveString p (some s) = (p, some a) := by
  unfold saveString
  dsimp only
  rw [hf]

theorem saveString_miss (p : MemoryPool) (s : List Nat)
    (hf : findString p s = none)
    (hc : p._left + ((s.length + 1 : Nat) : Int) ≤ p._right) :
    saveString p (some s) =
      ({ p with _left := p._left + ((s.length + 1 : Nat) : Int),
                data := writeBytes p.data (offsetOf p p._left) (s ++ [0]) },
       some p._left) := by
  unfold saveString
  dsimp only
  rw [hf, allocString_ok p (s.length + 1) hc]
  rfl

theorem saveString_oom (p : MemoryPool) (s : List Nat)
    (hf : findString p s = none)
    (hc : ¬ p._left + ((s.length + 1 : Nat) : Int) ≤ p._right) :
    saveString p (some s) = ({ p with _overflowed := true }, none) := by
  unfold saveString
  dsimp only
  rw [hf, allocString_fail p (s.length + 1) hc]

theorem saveStringFromFreeZone_hit (p : MemoryPool) (len : Nat) (a : Int)
    (hf : findString p (zoneBytes p len) = some a) :
    saveStringFromFreeZone p len = (p, a) := by
  unfold saveStringFromFreeZone
  rw [hf]

theorem saveStringFromFreeZone_miss (p : MemoryPool) (len : Nat)
    (hf : findString p (zoneBytes p len) = none) :
    saveStringFromFreeZone p len =
      ({ p with _left := p._left + len + 1,
                data := writeBytes p.data (offsetOf p p._left + len) [0] },
       p._left) := by
  unfold saveStringFromFreeZone
  rw [hf]

theorem findString_of_left_le (p : MemoryPool) (s : List Nat)
    (h : p._left ≤ p._begin) : findString p s = none := by
  unfold findString offsetOf
  rw [show (p._left - p._begin).toNat = 0 by omega, findStringLoop_eq]
  simp

theorem squash_of_le (p : MemoryPool) (h : p._right ≤ addPaddingP p._left) :
    squash p = (p, 0) := by
  unfold squash
  rw [if_pos h]

theorem squash_of_lt (p : MemoryPool) (h : addPaddingP p._left < p._right) :
    squash p =
      ({ p with
          _right := addPaddingP p._left,
          _end := addPaddingP p._left + ((p._end - p._right).toNat : Int),
          data := (memmove p.data (offsetOf p (addPaddingP p._left))
                    (offsetOf p p._right) (p._end - p._right).toNat).take
                  ((addPaddingP p._left + ((p._end - p._right).toNat : Int)
                    - p._begin).toNat) },
       p._right - addPaddingP p._left) := by
  unfold squash
  rw [if_neg (by omega)]

theorem squash_eq_of_zero (p : MemoryPool) (h : (squash p).2 = 0) :
    squash p = (p, 0) := by
  by_cases hs : p._right ≤ addPaddingP p._left
  · exact squash_of_le p hs
  · rw [squash_of_lt p (by omega)] at h
    dsimp only at h
    omega

theorem squash_left (p : MemoryPool) : (squash p).1._left = p._left := by
  unfold squash; split <;> rfl

theorem squash_overflowed (p : MemoryPool) :
    (squash p).1._overflowed = p._overflowed := by
  unfold squash; split <;> rfl

theorem capacity_movePointers (p : MemoryPool) (off : Int) :
    capacity (movePointers p off) = capacity p := by
  unfold capacity movePointers
  dsimp only
  ring

/-! ## Lemmas: the overflow flag is never reset outside `clear` -/

theorem overflowed_allocRight (p : MemoryPool) (n : Nat)
    (h : p._overflowed = true) : (allocRight p n).1._overflowed = true := by
  unfold allocRight
  split <;> simp [h]

theorem overflowed_allocString (p : MemoryPool) (n : Nat)
    (h : p._overflowed = true) : (allocString p n).1._overflowed = true := by
  unfold allocString
  split <;> simp [h]

theorem overflowed_saveString (p : MemoryPool) (str : Option (List Nat))
    (h : p._overflowed = true) : (saveString p str).1._overflowed = true := by
  unfold saveString
  split
  · exact h
  · split
    · exact h
    · rename_i s _ _
      rcases ha : allocString p (s.length + 1) with ⟨p1, a⟩
      have hp1 : p1._overflowed = true := by
        have := overflowed_allocString p (s.length + 1) h
        rw [ha] at this; exact this
      cases a with
      | none => exact hp1
      | some newCopy => exact hp1

theorem overflowed_saveStringFromFreeZone (p : MemoryPool) (len : Nat)
    (h : p._overflowed = true) :
    (saveStringFromFreeZone p len).1._overflowed = true := by
  unfold saveStringFromFreeZone
  split <;> simpa using h

theorem overflowed_allocPool (p : MemoryPool) (capa : Nat) (buf : Int) :
    (allocPool p capa buf)._overflowed = p._overflowed := by
  unfold allocPool; split <;> rfl

theorem overflowed_reallocPool (p : MemoryPool) (n : Nat) (buf : Int) :
    (reallocPool p n buf)._overflowed = p._overflowed := by
  unfold reallocPool
  split
  · rfl
  · exact overflowed_allocPool p n buf

theorem overflowed_shrinkToFit (p : MemoryPool) (nb : Int) :
    (shrinkToFit p nb).1._overflowed = p._overflowed := by
  unfold shrinkToFit
  split
  · exact squash_overflowed p
  · show (movePointers (squash p).1 _)._overflowed = p._overflowed
    unfold movePointers
    dsimp only
    exact squash_overflowed p

theorem squash_right_of_lt (p : MemoryPool) (h : addPaddingP p._left < p._right) :
    (squash p).1._right = addPaddingP p._left := by
  rw [squash_of_lt p h]

theorem movePointers_zero (p : MemoryPool) : movePointers p 0 = p := by
  unfold movePointers
  cases p
  simp

/-! ## Lemmas: the deduplication scan finds a fresh copy

After a dedup miss, `saveString` appends `s ++ [0]` at the old `_left`.
The next scan for the same NUL-free `s` retraces the first scan's steps
over the unchanged `[_begin, old _left)` prefix and then hits the fresh
copy at exactly the old `_left`. -/

theorem matchesAt_iff (d : List Nat) : ∀ (s : List Nat) (q : Nat),
    matchesAt d q s = true ↔ ∀ j, j < s.length → getByte d (q + j) = s.getD j 0 := by
  intro s
  induction s with
  | nil =>
      intro q
      simp [matchesAt]
  | cons b rest ih =>
      intro q
      show ((getByte d q == b) && matchesAt d (q + 1) rest) = true ↔ _
      rw [Bool.and_eq_true, beq_iff_eq]
      constructor
      · rintro ⟨h0, h1⟩ j hj
        cases j with
        | zero => simpa using h0
        | succ j' =>
            have hx := (ih (q + 1)).1 h1 j' (by simp at hj; omega)
            rw [show q + (j' + 1) = q + 1 + j' by omega]
            simpa using hx
      · intro hall
        refine ⟨by simpa using hall 0 (by simp), (ih (q + 1)).2 ?_⟩
        intro j hj
        have hx := hall (j + 1) (by simp; omega)
        rw [show q + 1 + j = q + (j + 1) by omega]
        simpa using hx

theorem matchesAt_congr (d1 d2 : List Nat) : ∀ (s : List Nat) (q : Nat),
    (∀ j, j < s.length → getByte d1 (q + j) = getByte d2 (q + j)) →
    matchesAt d1 q s = matchesAt d2 q s := by
  intro s
  induction s with
  | nil => intro q _; rfl
  | cons b rest ih =>
      intro q hag
      show ((getByte d1 q == b) && matchesAt d1 (q + 1) rest)
         = ((getByte d2 q == b) && matchesAt d2 (q + 1) rest)
      have h0 : getByte d1 q = getByte d2 q := by simpa using hag 0 (by simp)
      rw [h0, ih (q + 1) (fun j hj => by
        have hx := hag (j + 1) (by simp; omega)
        rw [show q + 1 + j = q + (j + 1) by omega]
        exact hx)]

theorem skipTerm_le_of_zero (d : List Nat) (t q : Nat) (hz : getByte d t = 0)
    (hq : q ≤ t) : skipTerm d q ≤ t + 1 := by
  rw [skipTerm_eq]
  by_cases h0 : getByte d q = 0
  · rw [if_pos h0]; omega
  · rw [if_neg h0]
    have hqt : q < t := by
      rcases Nat.eq_or_lt_of_le hq with h | h
      · subst h; exact absurd hz h0
      · exact h
    exact skipTerm_le_of_zero d t (q + 1) hz hqt
termination_by t - q
decreasing_by omega

theorem skipTerm_congr (d1 d2 : List Nat) (L q : Nat)
    (hag : ∀ i, i < L → getByte d1 i = getByte d2 i)
    (hqL : q < L) (hle : skipTerm d2 q ≤ L) :
    skipTerm d1 q = skipTerm d2 q := by
  have h0 : getByte d1 q = getByte d2 q := hag q hqL
  rw [skipTerm_eq d1 q, skipTerm_eq d2 q, h0]
  by_cases hz : getByte d2 q = 0
  · simp only [if_pos hz]
  · simp only [if_neg hz]
    have hgt := skipTerm_gt d2 (q + 1)
    have hlee : skipTerm d2 (q + 1) ≤ L := by
      rw [skipTerm_eq d2 q, if_neg hz] at hle
      exact hle
    exact skipTerm_congr d1 d2 L (q + 1) hag (by omega) hlee
termination_by L - q
decreasing_by omega

theorem getD_append_left (l l' : List Nat) : ∀ j, j < l.length →
    (l ++ l').getD j 0 = l.getD j 0 := by
  induction l with
  | nil => intro j hj; simp at hj
  | cons b rest ih =>
      intro j hj
      cases j with
      | zero => rfl
      | succ j' => simpa using ih j' (by simp at hj; omega)

theorem getD_append_term (s : List Nat) : (s ++ [0]).getD s.length 0 = 0 := by
  induction s with
  | nil => rfl
  | cons b rest ih => simp only [List.cons_append, List.length_cons,
      List.getD_cons_succ]; exact ih

theorem getD_mem (s : List Nat) : ∀ j, j < s.length → s.getD j 0 ∈ s := by
  induction s with
  | nil => intro j hj; simp at hj
  | cons b rest ih =>
      intro j hj
      cases j with
      | zero => simp
      | succ j' =>
          simp only [List.getD_cons_succ]
          exact List.mem_cons_of_mem _ (ih j' (by simp at hj; omega))

/-- The core of the deduplication argument: suppose a scan for a NUL-free
`s` over `[0, L)` in `d` missed, and `d1` agrees with `d` below `L` but
additionally holds `s` at `L` with a NUL terminator at `L + s.length`
(and the old region, when nonempty, ends with a NUL at `L - 1`).  Then the
scan over `[0, L + s.length + 1)` in `d1`, resumed at any visited point
`q ≤ L`, returns exactly `L`. -/
theorem second_scan (d d1 s : List Nat) (L : Nat)
    (hag : ∀ i, i < L → getByte d1 i = getByte d i)
    (hnew : ∀ j, j < s.length → getByte d1 (L + j) = s.getD j 0)
    (hterm : getByte d1 (L + s.length) = 0)
    (hWF : L = 0 ∨ getByte d (L - 1) = 0)
    (hs : ∀ b ∈ s, b ≠ 0)
    (q : Nat) (hq : q ≤ L)
    (hmiss : findStringLoop d s L q = none) :
    findStringLoop d1 s (L + s.length + 1) q = some L := by
  rcases Nat.lt_or_ge q L with hlt | hge
  · have hz : getByte d (L - 1) = 0 := by
      rcases hWF with h | h
      · omega
      · exact h
    have hskip_le : skipTerm d q ≤ L := by
      have := skipTerm_le_of_zero d (L - 1) q hz (by omega)
      omega
    have hskip_eq : skipTerm d1 q = skipTerm d q :=
      skipTerm_congr d1 d L q hag hlt hskip_le
    have hgt := skipTerm_gt d q
    by_cases hcond : q + s.length < L
    · rw [findStringLoop_eq, if_pos hcond] at hmiss
      by_cases hmatch : (getByte d (q + s.length) == 0 && matchesAt d q s) = true
      · rw [if_pos hmatch] at hmiss
        exact absurd hmiss (by simp)
      · rw [if_neg hmatch] at hmiss
        rw [findStringLoop_eq, if_pos (by omega)]
        have hmeq : (getByte d1 (q + s.length) == 0 && matchesAt d1 q s)
            = (getByte d (q + s.length) == 0 && matchesAt d q s) := by
          rw [hag (q + s.length) (by omega),
            matchesAt_congr d1 d s q (fun j hj => hag (q + j) (by omega))]
        rw [hmeq, if_neg hmatch, hskip_eq]
        exact second_scan d d1 s L hag hnew hterm hWF hs (skipTerm d q)
          hskip_le hmiss
    · rw [findStringLoop_eq, if_pos (by omega)]
      have hidx : q + s.length - L < s.length := by omega
      have hb1 : getByte d1 (q + s.length) = s.getD (q + s.length - L) 0 := by
        have hx := hnew (q + s.length - L) hidx
        rw [show L + (q + s.length - L) = q + s.length by omega] at hx
        exact hx
      have hne : getByte d1 (q + s.length) ≠ 0 := by
        rw [hb1]
        exact hs _ (getD_mem s _ hidx)
      have hcondneg : ¬ (getByte d1 (q + s.length) == 0 && matchesAt d1 q s) = true := by
        rw [Bool.and_eq_true]
        rintro ⟨hx, _⟩
        exact hne (by simpa using hx)
      rw [if_neg hcondneg, hskip_eq]
      have hmiss2 : findStringLoop d s L (skipTerm d q) = none := by
        rw [findStringLoop_eq, if_neg (by omega)]
      exact second_scan d d1 s L hag hnew hterm hWF hs (skipTerm d q)
        hskip_le hmiss2
  · have hqL : q = L := by omega
    subst hqL
    rw [findStringLoop_eq, if_pos (by omega)]
    have hm : matchesAt d1 q s = true := by
      rw [matchesAt_iff]
      intro j hj
      exact hnew j hj
    rw [if_pos (by simp [hterm, hm])]
termination_by L - q
decreasing_by
  all_goals omega

/-! ## The claims -/

/-- **C1.**  For every sequence of arena operations (construction,
`allocVariant`, `saveString`, `saveStringFromFreeZone`, `clear`,
`reallocPool`, `shrinkToFit`), each run under the code's own asserted
preconditions (`Pre`), the cursor invariant holds after every operation:
construction establishes `Inv` — whose first five conjuncts are exactly
`_begin ≤ _left ≤ _right ≤ _end` plus pointer-alignment of `_right` — and
every operation preserves `Inv`. -/
theorem c1_cursor_invariant :
    (∀ (capa : Nat) (buf : Int), isAligned buf → Inv (mkPool capa buf)) ∧
    (∀ (p : MemoryPool) (op : Op), Inv p → Pre p op → Inv (applyOp p op)) := by
  refine ⟨fun capa buf hbuf => inv_mkPool capa buf hbuf, ?_⟩
  intro p op hInv hPre
  cases op with
  | allocVariant => exact inv_allocVariant p hInv
  | saveString s => exact inv_saveString p s hInv
  | saveStringFromFreeZone len w =>
      exact inv_saveStringFromFreeZone _ len (inv_data_write p _ w hInv) hPre.1
  | clear => exact inv_clear p hInv
  | reallocPool n buf => exact inv_reallocPool p n buf hInv hPre.2 hPre.1
  | shrinkToFit nb => exact inv_shrinkToFit p nb hInv hPre

/-- Witness for C1 at concrete inputs: a freshly constructed pool satisfies
the invariant and still does after a node-slot allocation. -/
theorem c1_witness :
    Inv (mkPool 12 8) ∧ Inv (applyOp (mkPool 12 8) Op.allocVariant) :=
  ⟨c1_cursor_invariant.1 12 8 (by decide),
   c1_cursor_invariant.2 (mkPool 12 8) Op.allocVariant
     (c1_cursor_invariant.1 12 8 (by decide)) trivial⟩

/-- **C6.**  The overflow flag is sticky: every operation other than
`clear` preserves `_overflowed = true` (allocations that would fit
included), and `clear` — the only resetting operation — sets it to
`false` while resetting `_left` to `_begin` and `_right` to `_end`. -/
theorem c6_overflow_sticky :
    (∀ (p : MemoryPool) (op : Op), op ≠ Op.clear → p._overflowed = true →
      (applyOp p op)._overflowed = true) ∧
    (∀ p : MemoryPool, applyOp p Op.clear =
      { p with _left := p._begin, _right := p._end, _overflowed := false }) := by
  constructor
  · intro p op hne hov
    cases op with
    | allocVariant => exact overflowed_allocRight p _ hov
    | saveString s => exact overflowed_saveString p s hov
    | saveStringFromFreeZone len w =>
        exact overflowed_saveStringFromFreeZone _ len hov
    | clear => exact absurd rfl hne
    | reallocPool n buf =>
        show (reallocPool p n buf)._overflowed = true
        rw [overflowed_reallocPool]; exact hov
    | shrinkToFit nb =>
        show (shrinkToFit p nb).1._overflowed = true
        rw [overflowed_shrinkToFit]; exact hov
  · intro p; rfl

/-- Witness for C6 at a concrete input: an overflowed pool stays
overflowed across a node-slot allocation that would fit. -/
theorem c6_witness :
    (applyOp (markAsOverflowed (mkPool 32 8)) Op.allocVariant)._overflowed = true :=
  c6_overflow_sticky.1 (markAsOverflowed (mkPool 32 8)) Op.allocVariant
    (by decide) rfl

/-- **C7.**  `allocVariant` fails exactly when
`_left + sizeof(VariantSlot) > _right`: on failure it returns the null
indicator, sets `_overflowed`, and leaves all four cursors and the buffer
content unchanged; on success it decrements `_right` by exactly one slot
size and returns the new `_right`. -/
theorem c7_allocVariant_exact (p : MemoryPool) :
    (p._right < p._left + (sizeofVariantSlot : Int) →
      allocVariant p = ({ p with _overflowed := true }, none)) ∧
    (p._left + (sizeofVariantSlot : Int) ≤ p._right →
      allocVariant p =
        ({ p with _right := p._right - (sizeofVariantSlot : Int) },
         some (p._right - (sizeofVariantSlot : Int)))) := by
  constructor
  · intro h
    unfold allocVariant allocRight
    rw [if_neg (by rw [canAlloc_iff]; omega)]
  · intro h
    unfold allocVariant allocRight
    rw [if_pos ((canAlloc_iff p _).2 h)]

/-- Witness for C7 at concrete inputs: failure on a pool whose gap is too
small, success on a large one. -/
theorem c7_witness :
    allocVariant (mkPool 8 8) = ({ mkPool 8 8 with _overflowed := true }, none) ∧
    allocVariant (mkPool 32 8) =
      ({ mkPool 32 8 with _right := (mkPool 32 8)._right - (sizeofVariantSlot : Int) },
       some ((mkPool 32 8)._right - (sizeofVariantSlot : Int))) :=
  ⟨(c7_allocVariant_exact (mkPool 8 8)).1 (by decide),
   (c7_allocVariant_exact (mkPool 32 8)).2 (by decide)⟩

/-- **C10.**  A null (`isNull`) input makes `saveString` return the null
pointer with the pool state — cursors, buffer content and the
`_overflowed` flag — fully unchanged, whereas an out-of-memory failure
also returns null but sets `_overflowed`; the two cases thus differ
exactly in the flag. -/
theorem c10_null_string (p : MemoryPool) :
    saveString p none = (p, none) ∧
    (∀ s : List Nat, findString p s = none →
      ¬ p._left + ((s.length + 1 : Nat) : Int) ≤ p._right →
      saveString p (some s) = ({ p with _overflowed := true }, none)) :=
  ⟨rfl, fun s hf hc => saveString_oom p s hf hc⟩

/-- Witness for C10 at a concrete input: the null string on a zero-capacity
pool versus an out-of-memory copy on the same pool. -/
theorem c10_witness :
    saveString (mkPool 0 0) none = (mkPool 0 0, none) ∧
    saveString (mkPool 0 0) (some []) =
      ({ mkPool 0 0 with _overflowed := true }, none) :=
  ⟨(c10_null_string (mkPool 0 0)).1,
   (c10_null_string (mkPool 0 0)).2 [] (findString_of_left_le _ _ (by decide))
     (by decide)⟩

/-- **C9** (code bug).  `reallocPool(5)` on an empty pool: the padded
target capacity is `addPadding(5) = 8` and differs from the current
capacity `0`, so the pool is reallocated — but the source passes the
unpadded `requiredSize` to `allocPool` (line 78), so the fresh buffer has
capacity `5`, not the padded `8` the claim (and `allocPool`'s own
`isAligned(_end)`/`isAligned(_right)` assertions, lines 270–271) require:
with the aligned base `8` the resulting `_end = _right = 13` is not
pointer-aligned. -/
theorem c9_reallocPool_unpadded :
    addPaddingN 5 = 8 ∧
    capacity (reallocPool (mkPool 0 0) 5 8) = 5 ∧
    isAligned ((reallocPool (mkPool 0 0) 5 8)._begin) ∧
    ¬ isAligned ((reallocPool (mkPool 0 0) 5 8)._end) ∧
    ¬ isAligned ((reallocPool (mkPool 0 0) 5 8)._right) := by
  decide

/-- **C4.**  When `squash` reclaims a nonzero number of bytes,
`shrinkToFit` shifts all four cursors by `ptr_offset = newBase − _begin`
(the raw pointer difference of the allocator's `reallocate` result) and
invokes the tree's relocation entry point with exactly the two
displacements `ptr_offset` and `ptr_offset − bytes_reclaimed`; a
reallocation returning the same address gives `ptr_offset = 0` and flows
through the same formula (displacements `0` and `−bytes_reclaimed`), not
an error path. -/
theorem c4_two_displacements :
    (∀ (p : MemoryPool) (newBase : Int), (squash p).2 ≠ 0 →
      shrinkToFit p newBase =
        ({ (squash p).1 with
            _begin := p._begin + (newBase - p._begin),
            _left := (squash p).1._left + (newBase - p._begin),
            _right := (squash p).1._right + (newBase - p._begin),
            _end := (squash p).1._end + (newBase - p._begin) },
         some (newBase - p._begin, newBase - p._begin - (squash p).2))) ∧
    (∀ p : MemoryPool, (squash p).2 ≠ 0 →
      shrinkToFit p p._begin = ((squash p).1, some (0, -(squash p).2))) := by
  constructor
  · intro p newBase h
    unfold shrinkToFit
    rw [if_neg h]
    unfold movePointers
    rw [squash_begin]
  · intro p h
    unfold shrinkToFit
    rw [if_neg h, squash_begin, sub_self, movePointers_zero]
    simp

/-- Witness for C4 at a concrete input: a pool with one node slot, whose
reallocation returns the unchanged base address. -/
theorem c4_witness :
    (squash (allocVariant (mkPool 64 8)).1).2 ≠ 0 ∧
    shrinkToFit (allocVariant (mkPool 64 8)).1 ((allocVariant (mkPool 64 8)).1)._begin =
      ((squash (allocVariant (mkPool 64 8)).1).1,
       some (0, -(squash (allocVariant (mkPool 64 8)).1).2)) :=
  ⟨by decide, c4_two_displacements.2 _ (by decide)⟩

/-- **C2.**  `shrinkToFit` is idempotent: immediately after a
`shrinkToFit` (no intervening operation), a second `shrinkToFit` reclaims
`0` bytes (`squash` returns `0`), performs no reallocation, no cursor
movement and no reference rewriting (relocation event `none`), and leaves
the state — capacity and buffer content included — identical.  The bases
involved are pointer-aligned, as every `malloc`-backed allocator
guarantees. -/
theorem c2_shrinkToFit_idempotent (p : MemoryPool) (nb nb2 : Int)
    (hb : isAligned p._begin) (hnb : isAligned nb) :
    shrinkToFit (shrinkToFit p nb).1 nb2 = ((shrinkToFit p nb).1, none) ∧
    (squash (shrinkToFit p nb).1).2 = 0 := by
  by_cases hz : (squash p).2 = 0
  · have hsq : squash p = (p, 0) := squash_eq_of_zero p hz
    have h1 : (shrinkToFit p nb).1 = p := by
      unfold shrinkToFit
      rw [if_pos hz, hsq]
    rw [h1]
    constructor
    · unfold shrinkToFit
      rw [hsq]
      simp
    · rw [hsq]
  · have hlt : addPaddingP p._left < p._right := by
      by_contra hc
      exact hz (by rw [squash_of_le p (by omega)])
    have hd : isAligned (nb - p._begin) := by
      unfold isAligned at hb hnb ⊢
      omega
    have h1 : (shrinkToFit p nb).1 = movePointers (squash p).1 (nb - p._begin) := by
      unfold shrinkToFit
      rw [if_neg hz, squash_begin]
    have hql : (movePointers (squash p).1 (nb - p._begin))._left
        = p._left + (nb - p._begin) := by
      unfold movePointers
      dsimp only
      rw [squash_left]
    have hqr : (movePointers (squash p).1 (nb - p._begin))._right
        = addPaddingP p._left + (nb - p._begin) := by
      unfold movePointers
      dsimp only
      rw [squash_right_of_lt p hlt]
    have hle : (movePointers (squash p).1 (nb - p._begin))._right
        ≤ addPaddingP ((movePointers (squash p).1 (nb - p._begin))._left) := by
      rw [hqr, hql, addPaddingP_add_of_aligned _ _ hd]
    have hsq2 : squash (movePointers (squash p).1 (nb - p._begin))
        = (movePointers (squash p).1 (nb - p._begin), 0) :=
      squash_of_le _ hle
    rw [h1]
    constructor
    · unfold shrinkToFit
      rw [hsq2]
      simp
    · rw [hsq2]

/-- Witness for C2 at a concrete input: a pool with one node slot, shrunk
with a relocation to base `16`, then shrunk again. -/
theorem c2_witness :
    shrinkToFit (shrinkToFit (allocVariant (mkPool 64 8)).1 16).1 24 =
      ((shrinkToFit (allocVariant (mkPool 64 8)).1 16).1, none) ∧
    (squash (shrinkToFit (allocVariant (mkPool 64 8)).1 16).1).2 = 0 :=
  c2_shrinkToFit_idempotent (allocVariant (mkPool 64 8)).1 16 24
    (by decide) (by decide)

/-- **C3.**  After `shrinkToFit`, `capacity()` equals exactly the live
string bytes rounded up once to pointer alignment plus the live node-slot
bytes, independent of the reallocation's returned base; in particular one
node slot plus one copied 7-byte string yields `sizeof(VariantSlot) + 8`,
and an empty arena yields `0`. -/
theorem c3_shrink_exact_capacity :
    (∀ (p : MemoryPool) (nb : Int), Inv p →
      capacity (shrinkToFit p nb).1 =
        addPaddingP (p._left - p._begin) + (p._end - p._right)) ∧
    capacity (shrinkToFit (saveString (allocVariant (mkPool 64 8)).1
      (some [97, 98, 99, 100, 101, 102, 103])).1 8).1
      = (sizeofVariantSlot : Int) + 8 ∧
    capacity (shrinkToFit (mkPool 64 8) 8).1 = 0 := by
  refine ⟨?_, ?_, ?_⟩
  · intro p nb hInv
    obtain ⟨h1, h2, h3, hbb, hrr, hee, hdd⟩ := hInv
    have hpad : addPaddingP (p._left - p._begin) = addPaddingP p._left - p._begin := by
      have hx := addPaddingP_add_of_aligned (p._left - p._begin) p._begin hbb
      rw [show p._left - p._begin + p._begin = p._left by ring] at hx
      omega
    by_cases hz : (squash p).2 = 0
    · have hle : p._right ≤ addPaddingP p._left := by
        by_contra hc
        rw [squash_of_lt p (by omega)] at hz
        dsimp only at hz
        omega
      have heq : addPaddingP p._left = p._right :=
        le_antisymm (addPaddingP_le_of_aligned _ _ h2 hrr) hle
      unfold shrinkToFit
      rw [if_pos hz, squash_eq_of_zero p hz]
      unfold capacity
      dsimp only
      omega
    · have hlt : addPaddingP p._left < p._right := by
        by_contra hc
        exact hz (by rw [squash_of_le p (by omega)])
      unfold shrinkToFit
      rw [if_neg hz]
      rw [capacity_movePointers, squash_of_lt p hlt]
      unfold capacity
      dsimp only
      have hcast : ((p._end - p._right).toNat : Int) = p._end - p._right := by omega
      omega
  · have hf : findString (allocVariant (mkPool 64 8)).1
        [97, 98, 99, 100, 101, 102, 103] = none :=
      findString_of_left_le _ _ (by decide)
    rw [saveString_miss _ _ hf (by decide)]
    decide
  · decide

/-- Witness for C3 at a concrete input: the capacity formula evaluated on
a freshly constructed pool. -/
theorem c3_witness :
    capacity (shrinkToFit (mkPool 24 8) 16).1 =
      addPaddingP ((mkPool 24 8)._left - (mkPool 24 8)._begin) +
        ((mkPool 24 8)._end - (mkPool 24 8)._right) :=
  c3_shrink_exact_capacity.1 (mkPool 24 8) 16 (by decide)

/-- **C8 (amended).**  `saveStringFromFreeZone(len)` first applies the
deduplication check against the `len` bytes already written at `_left`; on
a hit it returns the existing address and leaves the pool — `_left`
included — unchanged; on a miss it appends a NUL terminator after the
`len` payload bytes and advances `_left` by `len + 1` (the claim's `len`
omits the terminator byte the code writes with `*_left++ = 0`), returning
the old `_left`. -/
theorem c8_free_zone_commit (p : MemoryPool) (len : Nat) :
    (∀ a : Int, findString p (zoneBytes p len) = some a →
      saveStringFromFreeZone p len = (p, a)) ∧
    (findString p (zoneBytes p len) = none →
      saveStringFromFreeZone p len =
        ({ p with _left := p._left + len + 1,
                  data := writeBytes p.data (offsetOf p p._left + len) [0] },
         p._left)) :=
  ⟨fun a hf => saveStringFromFreeZone_hit p len a hf,
   fun hf => saveStringFromFreeZone_miss p len hf⟩

/-- Counterexample for C8 as stated: on a fresh pool (the deduplication
check misses), committing `len = 3` bytes advances `_left` by `4`, not by
`3` as the claim says. -/
theorem c8_counterexample :
    (saveStringFromFreeZone (mkPool 16 8) 3).1._left = (mkPool 16 8)._left + 4 ∧
    (saveStringFromFreeZone (mkPool 16 8) 3).1._left ≠ (mkPool 16 8)._left + 3 := by
  rw [saveStringFromFreeZone_miss (mkPool 16 8) 3
    (findString_of_left_le _ _ (by decide))]
  decide

/-- Witness for C8 at a concrete input: a miss commit on a fresh pool. -/
theorem c8_witness :
    saveStringFromFreeZone (mkPool 16 8) 3 =
      ({ mkPool 16 8 with
          _left := (mkPool 16 8)._left + 3 + 1,
          data := writeBytes (mkPool 16 8).data
                    (offsetOf (mkPool 16 8) (mkPool 16 8)._left + 3) [0] },
       (mkPool 16 8)._left) :=
  (c8_free_zone_commit (mkPool 16 8) 3).2 (findString_of_left_le _ _ (by decide))

/-- **C5 (amended).**  With string deduplication enabled, for every
*NUL-free* string content `s`, on an arena state satisfying the structural
invariant and whose string region is a well-formed sequence of
NUL-terminated strings, a second `saveString(s)` right after a first
successful `saveString(s)` returns the same address as the first call and
changes nothing — in particular it advances `_left` by `0` bytes.  (For a
content with an embedded NUL byte the second call still allocates nothing,
but may return a different, earlier matching address: see the
counterexample.) -/
theorem c5_dedup_second_save (p p1 : MemoryPool) (s : List Nat) (addr : Int)
    (hInv : Inv p) (hWF : WFstr p) (hs : ∀ b ∈ s, b ≠ 0)
    (h1 : saveString p (some s) = (p1, some addr)) :
    saveString p1 (some s) = (p1, some addr) := by
  obtain ⟨hb, hlr, hre, _, _, _, hdlen⟩ := hInv
  cases hf : findString p s with
  | some a =>
      rw [saveString_hit p s a hf] at h1
      injection h1 with hA hB
      injection hB with hB2
      subst hA
      subst hB2
      exact saveString_hit p s a hf
  | none =>
      by_cases hc : p._left + ((s.length + 1 : Nat) : Int) ≤ p._right
      · rw [saveString_miss p s hf hc] at h1
        injection h1 with hA hB
        injection hB with hB2
        subst hA
        subst hB2
        refine saveString_hit _ s p._left ?_
        have hmiss : findStringLoop p.data s (offsetOf p p._left) 0 = none := by
          unfold findString at hf
          cases hX : findStringLoop p.data s (offsetOf p p._left) 0 with
          | none => rfl
          | some off => rw [hX] at hf; simp at hf
        have hbound : offsetOf p p._left + s.length + 1 ≤ p.data.length := by
          unfold offsetOf
          rw [hdlen]
          omega
        have hloop : findStringLoop
            (writeBytes p.data (offsetOf p p._left) (s ++ [0])) s
            (offsetOf p p._left + s.length + 1) 0 = some (offsetOf p p._left) := by
          refine second_scan p.data _ s (offsetOf p p._left)
            (fun i hi => getByte_writeBytes_lt (s ++ [0]) p.data _ i hi)
            (fun j hj => ?_) ?_ ?_ hs 0 (Nat.zero_le _) hmiss
          · rw [getByte_writeBytes_at (s ++ [0]) p.data _ j
              (by simp; omega) (by omega)]
            exact getD_append_left s [0] j hj
          · rw [getByte_writeBytes_at (s ++ [0]) p.data _ s.length
              (by simp) (by omega)]
            exact getD_append_term s
          · rcases hWF with h | h
            · exact Or.inl (by unfold offsetOf; omega)
            · exact Or.inr h
        unfold findString
        dsimp only
        have hoff2 : offsetOf
            { p with _left := p._left + ((s.length + 1 : Nat) : Int),
                     data := writeBytes p.data (offsetOf p p._left) (s ++ [0]) }
            (p._left + ((s.length + 1 : Nat) : Int))
            = offsetOf p p._left + s.length + 1 := by
          unfold offsetOf
          dsimp only
          omega
        rw [hoff2, hloop]
        show some (p._begin + ((offsetOf p p._left : Nat) : Int)) = some p._left
        unfold offsetOf
        congr 1
        omega
      · rw [saveString_oom p s hf hc] at h1
        injection h1 with hA hB
        exact absurd hB (by simp)

/-- Counterexample for C5 as stated (arbitrary content): after
`saveString("")`, the first `saveString("\x00\x00")` stores a fresh copy at
address `9`, but the second returns the earlier overlapping match at
address `8` — a different address than the first call returned. -/
theorem c5_counterexample :
    (saveString (saveString (mkPool 16 8) (some [])).1 (some [0, 0])).2
      = some 9 ∧
    (saveString (saveString (saveString (mkPool 16 8) (some [])).1
        (some [0, 0])).1 (some [0, 0])).2 = some 8 ∧
    (9 : Int) ≠ 8 := by
  refine ⟨?_, ?_, by decide⟩ <;>
    simp [saveString, findString, offsetOf, findStringLoop_eq, skipTerm_eq,
      getByte, matchesAt, mkPool, allocPool, addPaddingN, allocString, canAlloc,
      writeBytes]

/-- Witness for C5 at a concrete input: saving the NUL-free content
`"ab"` twice on a fresh pool; the second call returns the first call's
address and leaves the state unchanged. -/
theorem c5_witness :
    saveString
      { mkPool 16 8 with
          _left := (mkPool 16 8)._left + (([97, 98].length + 1 : Nat) : Int),
          data := writeBytes (mkPool 16 8).data
                    (offsetOf (mkPool 16 8) (mkPool 16 8)._left)
                    ([97, 98] ++ [0]) }
      (some [97, 98]) =
    ({ mkPool 16 8 with
         _left := (mkPool 16 8)._left + (([97, 98].length + 1 : Nat) : Int),
         data := writeBytes (mkPool 16 8).data
                   (offsetOf (mkPool 16 8) (mkPool 16 8)._left)
                   ([97, 98] ++ [0]) },
     some (mkPool 16 8)._left) :=
  c5_dedup_second_save (mkPool 16 8) _ [97, 98] (mkPool 16 8)._left
    (by decide) (by decide) (by decide)
    (saveString_miss (mkPool 16 8) [97, 98]
      (findString_of_left_le _ _ (by decide)) (by decide))

end ArduinoJson
